import Mathlib

/-!
Verification of the Group Deletion Scheduler specification against the
cluster-autoscaler repository, together with the pod/node lister helpers
from utils/kubernetes/listers.go.

The scheduler implementation file itself is not part of the source tree
(only its conformance test suite is), so the scheduler operations are
modelled from the specification text; the lister helpers are translated
directly from listers.go.
-/

set_option autoImplicit false
set_option linter.unusedVariables false

namespace Scheduler

/-- Modelled from the spec: `DeletionResult.ResultType` is an enum with
`Success`, `ErrorFailedToDelete`, and similar variants; only these two are
needed by the observed behavior. -/
inductive ResultType where
  | Success
  | ErrorFailedToDelete
  deriving DecidableEq

/-- Modelled from the spec: `DeletionResult` pairs a result type with an
optional cause. -/
structure DeletionResult where
  resultType : ResultType
  errReason : Option String
  deriving DecidableEq

/-- A result counts as a failure when its type is not `Success`. -/
def isFailure (r : DeletionResult) : Bool :=
  match r.resultType with
  | .Success => false
  | .ErrorFailedToDelete => true

/-- Modelled from the spec: `NodeGroupRef` exposes a stable `Id()` and an
`IsAtomic()` capability flag. -/
structure NodeGroupRef where
  id : String
  isAtomic : Bool
  deriving DecidableEq

/-- Modelled from the spec: state of a per-group accumulator. -/
inductive AccState where
  | Accumulating
  | Flushed
  | Aborted
  deriving DecidableEq

/-- Modelled from the spec: per node-group-id accumulation state
`{ targetSize, accumulated, drain, state }`. -/
structure GroupAccumulator where
  targetSize : Nat
  accumulated : List String
  drain : Bool
  state : AccState
  deriving DecidableEq

/-- One `AddNodes(nodes, group, drain)` call received by the Batcher. -/
structure BatcherCall where
  nodes : List String
  groupId : String
  drain : Bool
  deriving DecidableEq

/-- Whole-scheduler state: the group-id-to-accumulator mapping, the ordered
list of Batcher `AddNodes` calls issued so far, and the ordered list of
results recorded in the Deletion Tracker. -/
structure SchedulerState where
  accumulators : List (String × GroupAccumulator)
  batcherCalls : List BatcherCall
  results : List (String × DeletionResult)
  deriving DecidableEq

/-- First-match lookup in the group-id-to-accumulator mapping. -/
def lookupAcc : List (String × GroupAccumulator) → String → Option GroupAccumulator
  | [], _ => none
  | (k, v) :: rest, gid => if k = gid then some v else lookupAcc rest gid

/-- Replace-or-append update of the group-id-to-accumulator mapping. -/
def setAcc : List (String × GroupAccumulator) → String → GroupAccumulator →
    List (String × GroupAccumulator)
  | [], gid, a => [(gid, a)]
  | (k, v) :: rest, gid, a =>
    if k = gid then (gid, a) :: rest else (k, v) :: setAcc rest gid a

/-- Modelled from the spec: look up the accumulator for a group id, or view
an unseen group as a fresh `Accumulating` accumulator with empty
`accumulated` and the caller-supplied target size and drain flag. -/
def accFor (s : SchedulerState) (gid : String) (groupSize : Nat) (drain : Bool) :
    GroupAccumulator :=
  match lookupAcc s.accumulators gid with
  | some a => a
  | none => ⟨groupSize, [], drain, .Accumulating⟩

/-- Failure recorded for a node scheduled into an already-aborted group. -/
def abortedGroupResult : DeletionResult :=
  ⟨.ErrorFailedToDelete, some "group already aborted"⟩

/-- Failure recorded defensively for a node arriving after the group flushed. -/
def lateArrivalResult : DeletionResult :=
  ⟨.ErrorFailedToDelete, some "node scheduled after group flush"⟩

/-- Failure recorded for an accumulated sibling when its group is aborted. -/
def abortInducedResult (reason : String) : DeletionResult :=
  ⟨.ErrorFailedToDelete, some reason⟩

/-- Modelled from the spec: `ScheduleDeletion(node, group, groupSize, drain)`.
Non-atomic groups forward the single node immediately; atomic groups
accumulate until `targetSize` is reached, then flush in one `AddNodes` call;
nodes arriving at an `Aborted` or `Flushed` accumulator only get a failure
result recorded. -/
def ScheduleDeletion (s : SchedulerState) (node : String) (group : NodeGroupRef)
    (groupSize : Nat) (drain : Bool) : SchedulerState :=
  if group.isAtomic = false then
    { s with batcherCalls := s.batcherCalls ++ [⟨[node], group.id, drain⟩] }
  else
    let acc := accFor s group.id groupSize drain
    match acc.state with
    | .Aborted =>
      { s with results := s.results ++ [(node, abortedGroupResult)] }
    | .Flushed =>
      { s with results := s.results ++ [(node, lateArrivalResult)] }
    | .Accumulating =>
      let newAccumulated := acc.accumulated ++ [node]
      if newAccumulated.length = acc.targetSize then
        { s with
            accumulators := setAcc s.accumulators group.id
              { acc with accumulated := newAccumulated, state := .Flushed },
            batcherCalls := s.batcherCalls ++ [⟨newAccumulated, group.id, drain⟩] }
      else
        { s with
            accumulators := setAcc s.accumulators group.id
              { acc with accumulated := newAccumulated } }

/-- Modelled from the spec: `AbortNodeDeletion(node, groupId, drain, reason,
result)`. Always records `result` for `node`; if an accumulator exists for
`groupId` and is `Accumulating`, transitions it to `Aborted` and records an
equivalent failure for every accumulated member, removing them from further
consideration. -/
def AbortNodeDeletion (s : SchedulerState) (node : String) (groupId : String)
    (drain : Bool) (reason : String) (result : DeletionResult) : SchedulerState :=
  let base := { s with results := s.results ++ [(node, result)] }
  match lookupAcc s.accumulators groupId with
  | some acc =>
    match acc.state with
    | .Accumulating =>
      { base with
          accumulators := setAcc base.accumulators groupId
            { acc with accumulated := [], state := .Aborted },
          results := base.results ++
            acc.accumulated.map (fun n => (n, abortInducedResult reason)) }
    | _ => base
  | none => base

/-- One external call into the scheduler. -/
inductive Event where
  | schedule (node : String) (group : NodeGroupRef) (groupSize : Nat) (drain : Bool)
  | abort (node : String) (groupId : String) (drain : Bool) (reason : String)
      (result : DeletionResult)
  deriving DecidableEq

/-- Apply one call to the scheduler state. -/
def step (s : SchedulerState) : Event → SchedulerState
  | .schedule n g k d => ScheduleDeletion s n g k d
  | .abort n gid d r res => AbortNodeDeletion s n gid d r res

/-- Run a sequence of calls from a given state. -/
def runFrom (s : SchedulerState) : List Event → SchedulerState
  | [] => s
  | e :: rest => runFrom (step s e) rest

/-- The state of a freshly constructed scheduler. -/
def initState : SchedulerState := ⟨[], [], []⟩

/-- Run a sequence of calls on a freshly constructed scheduler. -/
def run (es : List Event) : SchedulerState := runFrom initState es

/-- The trace of `ScheduleDeletion` calls for the nodes `ns` of one group. -/
def scheduleTrace (g : NodeGroupRef) (groupSize : Nat) (drain : Bool)
    (ns : List String) : List Event :=
  ns.map (fun n => .schedule n g groupSize drain)

/-- The Batcher calls attributed to one group id. -/
def callsFor (calls : List BatcherCall) (gid : String) : List BatcherCall :=
  calls.filter (fun c => c.groupId = gid)

/-- The tracker entries recorded for one node name. -/
def resultsFor (rs : List (String × DeletionResult)) (n : String) :
    List (String × DeletionResult) :=
  rs.filter (fun p => p.1 = n)

/-- The group id an event addresses. -/
def eventGid : Event → String
  | .schedule _ g _ _ => g.id
  | .abort _ gid _ _ _ => gid

/-- The node names whose tracker entries an event may touch in state `s`. -/
def touchedNodes (s : SchedulerState) : Event → List String
  | .schedule n _ _ _ => [n]
  | .abort n gid _ _ _ =>
    match lookupAcc s.accumulators gid with
    | some a => n :: a.accumulated
    | none => [n]

/-- A trace is compatible with atomic group id `gid` when every schedule
event addressed to `gid` carries an atomic group handle (a group id is a
stable identity, so one id cannot be both atomic and non-atomic). -/
def eventOkFor (gid : String) : Event → Prop
  | .schedule _ g _ _ => g.id = gid → g.isAtomic = true
  | .abort _ _ _ _ _ => True

theorem lookupAcc_setAcc_self (l : List (String × GroupAccumulator)) (gid : String)
    (a : GroupAccumulator) : lookupAcc (setAcc l gid a) gid = some a := by
  induction l with
  | nil => simp [setAcc, lookupAcc]
  | cons kv rest ih =>
    by_cases h : kv.1 = gid
    · simp [setAcc, h, lookupAcc]
    · simp [setAcc, h, lookupAcc, ih]

theorem lookupAcc_setAcc_ne (l : List (String × GroupAccumulator)) (gid gid' : String)
    (a : GroupAccumulator) (h : gid' ≠ gid) :
    lookupAcc (setAcc l gid a) gid' = lookupAcc l gid' := by
  have hgg : ¬(gid = gid') := fun hh => h hh.symm
  induction l with
  | nil => simp [setAcc, lookupAcc, hgg]
  | cons kv rest ih =>
    by_cases hk : kv.1 = gid
    · have hk2 : ¬(kv.1 = gid') := fun hh => hgg (hk.symm.trans hh)
      simp [setAcc, hk, lookupAcc, hgg, hk2]
    · simp only [setAcc, hk, if_false, lookupAcc]
      by_cases hk' : kv.1 = gid'
      · simp [hk']
      · simp [hk', ih]

theorem step_schedule_accumulating (g : NodeGroupRef) (hA : g.isAtomic = true)
    (N : Nat) (d : Bool) (n : String) (s : SchedulerState) (acc : List String)
    (d0 : Bool) (hacc : accFor s g.id N d = ⟨N, acc, d0, .Accumulating⟩) :
    ScheduleDeletion s n g N d =
      if acc.length + 1 = N then
        { s with
            accumulators := setAcc s.accumulators g.id ⟨N, acc ++ [n], d0, .Flushed⟩,
            batcherCalls := s.batcherCalls ++ [⟨acc ++ [n], g.id, d⟩] }
      else
        { s with
            accumulators :=
              setAcc s.accumulators g.id ⟨N, acc ++ [n], d0, .Accumulating⟩ } := by
  simp only [ScheduleDeletion, hA, Bool.true_eq_false, if_false, hacc]
  by_cases h : acc.length + 1 = N <;> simp [h]

theorem step_schedule_aborted (g : NodeGroupRef) (hA : g.isAtomic = true)
    (k : Nat) (d : Bool) (n : String) (s : SchedulerState) (a : GroupAccumulator)
    (hacc : accFor s g.id k d = a) (ha : a.state = .Aborted) :
    ScheduleDeletion s n g k d =
      { s with results := s.results ++ [(n, abortedGroupResult)] } := by
  simp only [ScheduleDeletion, hA, Bool.true_eq_false, if_false, hacc, ha]

theorem step_schedule_flushed (g : NodeGroupRef) (hA : g.isAtomic = true)
    (k : Nat) (d : Bool) (n : String) (s : SchedulerState) (a : GroupAccumulator)
    (hacc : accFor s g.id k d = a) (ha : a.state = .Flushed) :
    ScheduleDeletion s n g k d =
      { s with results := s.results ++ [(n, lateArrivalResult)] } := by
  simp only [ScheduleDeletion, hA, Bool.true_eq_false, if_false, hacc, ha]

theorem step_schedule_nonatomic (g : NodeGroupRef) (hA : g.isAtomic = false)
    (k : Nat) (d : Bool) (n : String) (s : SchedulerState) :
    ScheduleDeletion s n g k d =
      { s with batcherCalls := s.batcherCalls ++ [⟨[n], g.id, d⟩] } := by
  simp only [ScheduleDeletion, hA, if_true]

theorem step_abort_accumulating (s : SchedulerState) (n gid : String) (d : Bool)
    (r : String) (res : DeletionResult) (N : Nat) (acc : List String) (d0 : Bool)
    (hacc : lookupAcc s.accumulators gid = some ⟨N, acc, d0, .Accumulating⟩) :
    AbortNodeDeletion s n gid d r res =
      { s with
          accumulators := setAcc s.accumulators gid ⟨N, [], d0, .Aborted⟩,
          results := (s.results ++ [(n, res)]) ++
            acc.map (fun m => (m, abortInducedResult r)) } := by
  simp only [AbortNodeDeletion, hacc]

theorem step_abort_terminal (s : SchedulerState) (n gid : String) (d : Bool)
    (r : String) (res : DeletionResult) (a : GroupAccumulator)
    (hacc : lookupAcc s.accumulators gid = some a)
    (ha : a.state ≠ .Accumulating) :
    AbortNodeDeletion s n gid d r res =
      { s with results := s.results ++ [(n, res)] } := by
  simp only [AbortNodeDeletion, hacc]

theorem step_abort_unknown (s : SchedulerState) (n gid : String) (d : Bool)
    (r : String) (res : DeletionResult)
    (hacc : lookupAcc s.accumulators gid = none) :
    AbortNodeDeletion s n gid d r res =
      { s with results := s.results ++ [(n, res)] } := by
  simp only [AbortNodeDeletion, hacc]

theorem step_schedule_accumulating_general (g : NodeGroupRef)
    (hA : g.isAtomic = true) (k : Nat) (d : Bool) (n : String)
    (s : SchedulerState) (ts : Nat) (au : List String) (d0 : Bool)
    (hacc : accFor s g.id k d = ⟨ts, au, d0, .Accumulating⟩) :
    ScheduleDeletion s n g k d =
      if (au ++ [n]).length = ts then
        { s with
            accumulators := setAcc s.accumulators g.id ⟨ts, au ++ [n], d0, .Flushed⟩,
            batcherCalls := s.batcherCalls ++ [⟨au ++ [n], g.id, d⟩] }
      else
        { s with
            accumulators :=
              setAcc s.accumulators g.id ⟨ts, au ++ [n], d0, .Accumulating⟩ } := by
  simp only [ScheduleDeletion, hA, Bool.true_eq_false, if_false, hacc]

theorem resultsFor_append (l1 l2 : List (String × DeletionResult)) (m : String) :
    resultsFor (l1 ++ l2) m = resultsFor l1 m ++ resultsFor l2 m := by
  simp [resultsFor, List.filter_append]

theorem callsFor_append (l1 l2 : List BatcherCall) (gid : String) :
    callsFor (l1 ++ l2) gid = callsFor l1 gid ++ callsFor l2 gid := by
  simp [callsFor, List.filter_append]

/-- One step addressed to one group id leaves every other group id's
accumulator and Batcher calls unchanged, and leaves the tracker entries of
every untouched node unchanged. -/
theorem step_frame (s : SchedulerState) (e : Event) (gid' : String)
    (h : gid' ≠ eventGid e) :
    lookupAcc (step s e).accumulators gid' = lookupAcc s.accumulators gid' ∧
    callsFor (step s e).batcherCalls gid' = callsFor s.batcherCalls gid' ∧
    (∀ m, m ∉ touchedNodes s e →
      resultsFor (step s e).results m = resultsFor s.results m) := by
  cases e with
  | schedule n g k d =>
    have hgid : gid' ≠ g.id := h
    have hgg : ¬(g.id = gid') := fun hh => hgid hh.symm
    by_cases hat : g.isAtomic = true
    · cases hsa : (accFor s g.id k d) with
      | mk ts au d0 st =>
        cases st with
        | Accumulating =>
          have hstep := step_schedule_accumulating_general g hat k d n s ts au d0 hsa
          by_cases hcond : (au ++ [n]).length = ts
          · rw [if_pos hcond] at hstep
            refine ⟨?_, ?_, ?_⟩
            · show lookupAcc (ScheduleDeletion s n g k d).accumulators gid' = _
              rw [hstep]
              exact lookupAcc_setAcc_ne s.accumulators g.id gid' _ hgid
            · show callsFor (ScheduleDeletion s n g k d).batcherCalls gid' = _
              rw [hstep]
              simp only [callsFor_append]
              simp [callsFor, hgg]
            · intro m hm
              show resultsFor (ScheduleDeletion s n g k d).results m = _
              rw [hstep]
          · rw [if_neg hcond] at hstep
            refine ⟨?_, ?_, ?_⟩
            · show lookupAcc (ScheduleDeletion s n g k d).accumulators gid' = _
              rw [hstep]
              exact lookupAcc_setAcc_ne s.accumulators g.id gid' _ hgid
            · show callsFor (ScheduleDeletion s n g k d).batcherCalls gid' = _
              rw [hstep]
            · intro m hm
              show resultsFor (ScheduleDeletion s n g k d).results m = _
              rw [hstep]
        | Flushed =>
          have hstep := step_schedule_flushed g hat k d n s _ hsa rfl
          have hm1 : ∀ m, m ∉ touchedNodes s (.schedule n g k d) →
              resultsFor (s.results ++ [(n, lateArrivalResult)]) m =
                resultsFor s.results m := by
            intro m hm
            have hmn : ¬(n = m) := by
              intro hh
              exact hm (by simp [touchedNodes, hh])
            simp [resultsFor_append, resultsFor, hmn]
          exact ⟨by rw [show step s (.schedule n g k d) = _ from hstep],
            by rw [show step s (.schedule n g k d) = _ from hstep],
            fun m hm => by
              rw [show step s (.schedule n g k d) = _ from hstep]
              exact hm1 m hm⟩
        | Aborted =>
          have hstep := step_schedule_aborted g hat k d n s _ hsa rfl
          have hm1 : ∀ m, m ∉ touchedNodes s (.schedule n g k d) →
              resultsFor (s.results ++ [(n, abortedGroupResult)]) m =
                resultsFor s.results m := by
            intro m hm
            have hmn : ¬(n = m) := by
              intro hh
              exact hm (by simp [touchedNodes, hh])
            simp [resultsFor_append, resultsFor, hmn]
          exact ⟨by rw [show step s (.schedule n g k d) = _ from hstep],
            by rw [show step s (.schedule n g k d) = _ from hstep],
            fun m hm => by
              rw [show step s (.schedule n g k d) = _ from hstep]
              exact hm1 m hm⟩
    · have hat' : g.isAtomic = false := by
        cases hb : g.isAtomic
        · rfl
        · exact absurd hb hat
      have hstep := step_schedule_nonatomic g hat' k d n s
      refine ⟨by rw [show step s (.schedule n g k d) = _ from hstep],
        ?_, fun m hm => by rw [show step s (.schedule n g k d) = _ from hstep]⟩
      rw [show step s (.schedule n g k d) = _ from hstep]
      simp [callsFor, hgg]
  | abort n gid2 d r res =>
    have hgid : gid' ≠ gid2 := h
    cases hl : lookupAcc s.accumulators gid2 with
    | none =>
      have hstep := step_abort_unknown s n gid2 d r res hl
      refine ⟨by rw [show step s (.abort n gid2 d r res) = _ from hstep],
        by rw [show step s (.abort n gid2 d r res) = _ from hstep], ?_⟩
      intro m hm
      have hmn : ¬(n = m) := by
        intro hh
        exact hm (by simp [touchedNodes, hl, hh])
      rw [show step s (.abort n gid2 d r res) = _ from hstep]
      simp [resultsFor_append, resultsFor, hmn]
    | some a =>
      cases hsa : a.state with
      | Accumulating =>
        cases a with
        | mk ts au d0 st =>
          cases hsa
          have hstep := step_abort_accumulating s n gid2 d r res ts au d0 hl
          refine ⟨?_, ?_, ?_⟩
          · rw [show step s (.abort n gid2 d r res) = _ from hstep]
            exact lookupAcc_setAcc_ne s.accumulators gid2 gid' _ hgid
          · rw [show step s (.abort n gid2 d r res) = _ from hstep]
          · intro m hm
            have hmn : ¬(n = m) := by
              intro hh
              exact hm (by simp [touchedNodes, hl, hh])
            have hmau : m ∉ au := by
              intro hh
              exact hm (by simp [touchedNodes, hl, hh])
            rw [show step s (.abort n gid2 d r res) = _ from hstep]
            simp only [resultsFor_append]
            have h2 : resultsFor [(n, res)] m = [] := by
              simp [resultsFor, hmn]
            have h3 : resultsFor (au.map (fun mm => (mm, abortInducedResult r))) m = [] := by
              simp only [resultsFor, List.filter_eq_nil_iff]
              intro p hp
              simp only [List.mem_map] at hp
              obtain ⟨mm, hmm, hpeq⟩ := hp
              subst hpeq
              simp only [decide_eq_true_eq]
              intro hh
              exact hmau (hh ▸ hmm)
            simp [h2, h3]
      | Flushed =>
        have hstep := step_abort_terminal s n gid2 d r res a hl (by simp [hsa])
        refine ⟨by rw [show step s (.abort n gid2 d r res) = _ from hstep],
          by rw [show step s (.abort n gid2 d r res) = _ from hstep], ?_⟩
        intro m hm
        have hmn : ¬(n = m) := by
          intro hh
          exact hm (by simp [touchedNodes, hl, hh])
        rw [show step s (.abort n gid2 d r res) = _ from hstep]
        simp [resultsFor_append, resultsFor, hmn]
      | Aborted =>
        have hstep := step_abort_terminal s n gid2 d r res a hl (by simp [hsa])
        refine ⟨by rw [show step s (.abort n gid2 d r res) = _ from hstep],
          by rw [show step s (.abort n gid2 d r res) = _ from hstep], ?_⟩
        intro m hm
        have hmn : ¬(n = m) := by
          intro hh
          exact hm (by simp [touchedNodes, hl, hh])
        rw [show step s (.abort n gid2 d r res) = _ from hstep]
        simp [resultsFor_append, resultsFor, hmn]

theorem runFrom_append (t1 t2 : List Event) :
    ∀ s : SchedulerState, runFrom s (t1 ++ t2) = runFrom (runFrom s t1) t2 := by
  induction t1 with
  | nil => intro s; rfl
  | cons e rest ih => intro s; simp [runFrom, ih]

theorem scheduleTrace_append (g : NodeGroupRef) (k : Nat) (d : Bool)
    (ns ms : List String) :
    scheduleTrace g k d (ns ++ ms) = scheduleTrace g k d ns ++ scheduleTrace g k d ms := by
  simp [scheduleTrace]

/-- Running the schedule calls of `ns` against an `Accumulating` accumulator
holding `acc`: below the threshold they only extend `accumulated`; exactly at
the threshold the last call flushes the whole accumulated set in one Batcher
call. Other groups and the tracker are untouched either way. -/
theorem runSchedules_accumulating (g : NodeGroupRef) (hA : g.isAtomic = true)
    (N : Nat) (d : Bool) :
    ∀ (ns : List String) (s : SchedulerState) (acc : List String) (d0 : Bool),
    accFor s g.id N d = ⟨N, acc, d0, .Accumulating⟩ →
    ((acc.length + ns.length < N →
        (runFrom s (scheduleTrace g N d ns)).results = s.results ∧
        (runFrom s (scheduleTrace g N d ns)).batcherCalls = s.batcherCalls ∧
        accFor (runFrom s (scheduleTrace g N d ns)) g.id N d =
          ⟨N, acc ++ ns, d0, .Accumulating⟩ ∧
        (∀ gid', gid' ≠ g.id →
          lookupAcc (runFrom s (scheduleTrace g N d ns)).accumulators gid' =
            lookupAcc s.accumulators gid')) ∧
     (acc.length + ns.length = N → 0 < ns.length →
        (runFrom s (scheduleTrace g N d ns)).results = s.results ∧
        (runFrom s (scheduleTrace g N d ns)).batcherCalls =
          s.batcherCalls ++ [⟨acc ++ ns, g.id, d⟩] ∧
        lookupAcc (runFrom s (scheduleTrace g N d ns)).accumulators g.id =
          some ⟨N, acc ++ ns, d0, .Flushed⟩ ∧
        (∀ gid', gid' ≠ g.id →
          lookupAcc (runFrom s (scheduleTrace g N d ns)).accumulators gid' =
            lookupAcc s.accumulators gid'))) := by
  intro ns
  induction ns with
  | nil =>
    intro s acc d0 hacc
    constructor
    · intro hlt
      exact ⟨rfl, rfl, by simpa [scheduleTrace, runFrom] using hacc, fun _ _ => rfl⟩
    · intro heq hpos
      exact absurd hpos (by simp)
  | cons n rest ih =>
    intro s acc d0 hacc
    have hstep := step_schedule_accumulating g hA N d n s acc d0 hacc
    have htr : runFrom s (scheduleTrace g N d (n :: rest)) =
        runFrom (ScheduleDeletion s n g N d) (scheduleTrace g N d rest) := by
      simp [scheduleTrace, runFrom, step]
    by_cases hflush : acc.length + 1 = N
    · rw [if_pos hflush] at hstep
      constructor
      · intro hlt
        exfalso
        simp only [List.length_cons] at hlt
        omega
      · intro heq hpos
        have hrest : rest = [] := by
          simp only [List.length_cons] at heq
          have : rest.length = 0 := by omega
          exact List.length_eq_zero.mp this
        subst hrest
        rw [htr, hstep]
        refine ⟨rfl, rfl, ?_, fun gid' hgid' => ?_⟩
        · exact lookupAcc_setAcc_self s.accumulators g.id _
        · exact lookupAcc_setAcc_ne s.accumulators g.id gid' _ hgid'
    · rw [if_neg hflush] at hstep
      have hacc1 : accFor (ScheduleDeletion s n g N d) g.id N d =
          ⟨N, acc ++ [n], d0, .Accumulating⟩ := by
        rw [hstep]
        simp [accFor, lookupAcc_setAcc_self]
      have ihs := ih (ScheduleDeletion s n g N d) (acc ++ [n]) d0 hacc1
      constructor
      · intro hlt
        have hlen1 : (acc ++ [n]).length = acc.length + 1 := by simp
        have hlt' : (acc ++ [n]).length + rest.length < N := by
          rw [hlen1]
          simp only [List.length_cons] at hlt
          omega
        obtain ⟨hres, hcalls, haccend, hframe⟩ := ihs.1 hlt'
        refine ⟨?_, ?_, ?_, ?_⟩
        · rw [htr, hres, hstep]
        · rw [htr, hcalls, hstep]
        · rw [htr]
          rw [haccend]
          simp
        · intro gid' hgid'
          rw [htr, hframe gid' hgid', hstep]
          simpa using lookupAcc_setAcc_ne s.accumulators g.id gid' _ hgid'
      · intro heq hpos
        have hpos' : 0 < rest.length := by
          rcases Nat.eq_zero_or_pos rest.length with h0 | h0
          · exfalso
            simp only [List.length_cons] at heq
            omega
          · exact h0
        have hlen1 : (acc ++ [n]).length = acc.length + 1 := by simp
        have heq' : (acc ++ [n]).length + rest.length = N := by
          rw [hlen1]
          simp only [List.length_cons] at heq
          omega
        obtain ⟨hres, hcalls, haccend, hframe⟩ := ihs.2 heq' hpos'
        refine ⟨?_, ?_, ?_, ?_⟩
        · rw [htr, hres, hstep]
        · rw [htr, hcalls, hstep]
          simp only [List.append_assoc, List.singleton_append]
        · rw [htr, haccend]
          simp
        · intro gid' hgid'
          rw [htr, hframe gid' hgid', hstep]
          simpa using lookupAcc_setAcc_ne s.accumulators g.id gid' _ hgid'

/-- `Flushed` and `Aborted` are terminal: once a group id's accumulator is in
one of them, no later calls change that entry or add Batcher calls for that
group id. -/
theorem terminal_frozen (gid : String) (a : GroupAccumulator)
    (ha : a.state ≠ .Accumulating) :
    ∀ (es : List Event), (∀ e ∈ es, eventOkFor gid e) →
    ∀ s : SchedulerState, lookupAcc s.accumulators gid = some a →
      lookupAcc (runFrom s es).accumulators gid = some a ∧
      callsFor (runFrom s es).batcherCalls gid = callsFor s.batcherCalls gid := by
  intro es
  induction es with
  | nil => intro _ s hs; exact ⟨hs, rfl⟩
  | cons e rest ih =>
    intro hok s hs
    have hokrest : ∀ e' ∈ rest, eventOkFor gid e' :=
      fun e' he' => hok e' (List.mem_cons_of_mem _ he')
    have hoke : eventOkFor gid e := hok e (List.mem_cons_self _ _)
    have hstep : lookupAcc (step s e).accumulators gid = some a ∧
        callsFor (step s e).batcherCalls gid = callsFor s.batcherCalls gid := by
      cases e with
      | schedule n g k d =>
        simp only [eventOkFor] at hoke
        by_cases hgid : g.id = gid
        · have hat : g.isAtomic = true := hoke hgid
          subst hgid
          have haf : accFor s g.id k d = a := by simp [accFor, hs]
          cases hsa : a.state with
          | Accumulating => exact absurd hsa ha
          | Flushed =>
            have h1 := step_schedule_flushed g hat k d n s a haf hsa
            exact ⟨by rw [show step s (.schedule n g k d) = _ from h1]; exact hs,
              by rw [show step s (.schedule n g k d) = _ from h1]⟩
          | Aborted =>
            have h1 := step_schedule_aborted g hat k d n s a haf hsa
            exact ⟨by rw [show step s (.schedule n g k d) = _ from h1]; exact hs,
              by rw [show step s (.schedule n g k d) = _ from h1]⟩
        · have hf := step_frame s (.schedule n g k d) gid (fun hh => hgid hh.symm)
          exact ⟨by rw [hf.1]; exact hs, hf.2.1⟩
      | abort n gid2 d r res =>
        by_cases hgid : gid2 = gid
        · subst hgid
          have h1 := step_abort_terminal s n gid2 d r res a hs ha
          exact ⟨by rw [show step s (.abort n gid2 d r res) = _ from h1]; exact hs,
            by rw [show step s (.abort n gid2 d r res) = _ from h1]⟩
        · have hf := step_frame s (.abort n gid2 d r res) gid (fun hh => hgid hh.symm)
          exact ⟨by rw [hf.1]; exact hs, hf.2.1⟩
    obtain ⟨hs1, hc1⟩ := hstep
    have hrest := ih hokrest (step s e) hs1
    exact ⟨hrest.1,
      by rw [show runFrom s (e :: rest) = runFrom (step s e) rest from rfl, hrest.2, hc1]⟩

theorem resultsFor_map_induced_nil (au : List String) (r : String) (m : String)
    (hm : m ∉ au) :
    resultsFor (au.map (fun mm => (mm, abortInducedResult r))) m = [] := by
  simp only [resultsFor, List.filter_eq_nil_iff]
  intro p hp
  simp only [List.mem_map] at hp
  obtain ⟨mm, hmm, hpeq⟩ := hp
  subst hpeq
  simp only [decide_eq_true_eq]
  intro hh
  exact hm (hh ▸ hmm)

/-- C3: a `ScheduleDeletion` call for a non-atomic group forwards exactly
that one node immediately to the Batcher as a singleton `AddNodes` call, and
changes nothing else: no accumulator entry is created or modified and no
result is recorded. -/
theorem c3_nonatomic_immediate_forward (s : SchedulerState) (n : String)
    (g : NodeGroupRef) (k : Nat) (d : Bool) (hA : g.isAtomic = false) :
    ScheduleDeletion s n g k d =
      { s with batcherCalls := s.batcherCalls ++ [⟨[n], g.id, d⟩] } :=
  step_schedule_nonatomic g hA k d n s

/-- Witness for C3 at a concrete non-atomic group and node. -/
theorem c3_nonatomic_immediate_forward_witness :
    ScheduleDeletion initState "n0" ⟨"ng", false⟩ 3 false =
      { initState with
          batcherCalls := initState.batcherCalls ++ [⟨["n0"], "ng", false⟩] } :=
  c3_nonatomic_immediate_forward initState "n0" ⟨"ng", false⟩ 3 false rfl

/-- C4: `AbortNodeDeletion` always records the caller-supplied result for
the node, whatever the scheduler knows about it; and when the node is not
among the accumulated members of the addressed group (in particular for
nodes never scheduled and nodes of non-atomic groups, which have no
accumulator entry), the call appends exactly one tracker entry for that
node, without error. -/
theorem c4_abort_always_records (s : SchedulerState) (n gid : String)
    (d : Bool) (r : String) (res : DeletionResult) :
    (n, res) ∈ (AbortNodeDeletion s n gid d r res).results ∧
    ((∀ a, lookupAcc s.accumulators gid = some a → n ∉ a.accumulated) →
      resultsFor (AbortNodeDeletion s n gid d r res).results n =
        resultsFor s.results n ++ [(n, res)]) := by
  have hself : resultsFor [(n, res)] n = [(n, res)] := by simp [resultsFor]
  cases hl : lookupAcc s.accumulators gid with
  | none =>
    have h1 := step_abort_unknown s n gid d r res hl
    constructor
    · rw [h1]; simp
    · intro _
      rw [h1]
      simp only [resultsFor_append, hself]
  | some a =>
    cases hsa : a.state with
    | Accumulating =>
      cases a with
      | mk ts au d0 st =>
        cases hsa
        have h1 := step_abort_accumulating s n gid d r res ts au d0 hl
        constructor
        · rw [h1]; simp
        · intro hunk
          have hnau : n ∉ au := hunk _ rfl
          rw [h1]
          simp only [resultsFor_append, hself,
            resultsFor_map_induced_nil au r n hnau]
          simp
    | Flushed =>
      have h1 := step_abort_terminal s n gid d r res a hl (by simp [hsa])
      constructor
      · rw [h1]; simp
      · intro _
        rw [h1]
        simp only [resultsFor_append, hself]
    | Aborted =>
      have h1 := step_abort_terminal s n gid d r res a hl (by simp [hsa])
      constructor
      · rw [h1]; simp
      · intro _
        rw [h1]
        simp only [resultsFor_append, hself]

/-- Witness for C4: aborting a node completely unknown to a fresh scheduler
records exactly its result. -/
theorem c4_abort_always_records_witness :
    ("nx", (⟨.ErrorFailedToDelete, none⟩ : DeletionResult)) ∈
      (AbortNodeDeletion initState "nx" "g0" false "drain failed"
        ⟨.ErrorFailedToDelete, none⟩).results ∧
    resultsFor (AbortNodeDeletion initState "nx" "g0" false "drain failed"
        ⟨.ErrorFailedToDelete, none⟩).results "nx" =
      resultsFor initState.results "nx" ++
        [("nx", ⟨.ErrorFailedToDelete, none⟩)] := by
  have h := c4_abort_always_records initState "nx" "g0" false "drain failed"
    ⟨.ErrorFailedToDelete, none⟩
  exact ⟨h.1, h.2 (fun a ha => by simp [lookupAcc, initState] at ha)⟩

/-- C5: scheduling a node into an already-aborted atomic group records a
failure result for that node directly and leaves everything else unchanged:
in particular no Batcher call is made for it. -/
theorem c5_schedule_into_aborted (s : SchedulerState) (n : String)
    (g : NodeGroupRef) (k : Nat) (d : Bool) (a : GroupAccumulator)
    (hA : g.isAtomic = true) (hl : lookupAcc s.accumulators g.id = some a)
    (ha : a.state = .Aborted) :
    ScheduleDeletion s n g k d =
      { s with results := s.results ++ [(n, abortedGroupResult)] } ∧
    isFailure abortedGroupResult = true := by
  have haf : accFor s g.id k d = a := by simp [accFor, hl]
  exact ⟨step_schedule_aborted g hA k d n s a haf ha, rfl⟩

/-- Witness for C5 at a concrete aborted accumulator. -/
theorem c5_schedule_into_aborted_witness :
    ScheduleDeletion ⟨[("ag", ⟨2, [], false, .Aborted⟩)], [], []⟩ "x" ⟨"ag", true⟩
        2 false =
      { (⟨[("ag", ⟨2, [], false, .Aborted⟩)], [], []⟩ : SchedulerState) with
          results := [("x", abortedGroupResult)] } ∧
    isFailure abortedGroupResult = true :=
  c5_schedule_into_aborted ⟨[("ag", ⟨2, [], false, .Aborted⟩)], [], []⟩ "x"
    ⟨"ag", true⟩ 2 false ⟨2, [], false, .Aborted⟩ rfl (by decide) rfl

/-- C6: `Flushed` and `Aborted` are terminal. Once a group id's accumulator
is in either state, no sequence of further `ScheduleDeletion` or
`AbortNodeDeletion` calls changes that entry, and no Batcher call for that
group is ever added — in particular an `Aborted` group never flushes even if
enough further members are scheduled afterwards. -/
theorem c6_terminal_states (gid : String) (a : GroupAccumulator)
    (ha : a.state = .Flushed ∨ a.state = .Aborted) (es : List Event)
    (hes : ∀ e ∈ es, eventOkFor gid e) (s : SchedulerState)
    (hs : lookupAcc s.accumulators gid = some a) :
    lookupAcc (runFrom s es).accumulators gid = some a ∧
    callsFor (runFrom s es).batcherCalls gid = callsFor s.batcherCalls gid := by
  have ha' : a.state ≠ .Accumulating := by
    rcases ha with h | h <;> simp [h]
  exact terminal_frozen gid a ha' es hes s hs

/-- Witness for C6: an aborted group of target size 2 stays aborted and
yields no Batcher call even after two more members are scheduled. -/
theorem c6_terminal_states_witness :
    lookupAcc (runFrom ⟨[("ag", ⟨2, [], false, .Aborted⟩)], [], []⟩
        (scheduleTrace ⟨"ag", true⟩ 2 false ["m1", "m2"])).accumulators "ag" =
      some ⟨2, [], false, .Aborted⟩ ∧
    callsFor (runFrom ⟨[("ag", ⟨2, [], false, .Aborted⟩)], [], []⟩
        (scheduleTrace ⟨"ag", true⟩ 2 false ["m1", "m2"])).batcherCalls "ag" =
      callsFor ([] : List BatcherCall) "ag" :=
  c6_terminal_states "ag" ⟨2, [], false, .Aborted⟩ (Or.inr rfl)
    (scheduleTrace ⟨"ag", true⟩ 2 false ["m1", "m2"])
    (by intro e he; simp [scheduleTrace] at he; rcases he with h | h <;>
        simp [h, eventOkFor])
    ⟨[("ag", ⟨2, [], false, .Aborted⟩)], [], []⟩ (by decide)

/-- C2: aborting a member of an atomic group whose accumulator is
`Accumulating` records the caller-supplied failure for the aborted node and
an abort-induced failure for every node accumulated so far, issues no
Batcher call, moves the group to `Aborted`, and the group can never flush
afterwards. -/
theorem c2_abort_fails_accumulated (s : SchedulerState) (gid : String)
    (N : Nat) (acc : List String) (d0 : Bool) (n : String) (d : Bool)
    (r : String) (res : DeletionResult)
    (hl : lookupAcc s.accumulators gid = some ⟨N, acc, d0, .Accumulating⟩)
    (hres : isFailure res = true) :
    ((n, res) ∈ (AbortNodeDeletion s n gid d r res).results ∧
      isFailure res = true) ∧
    (∀ m ∈ acc,
      (m, abortInducedResult r) ∈ (AbortNodeDeletion s n gid d r res).results ∧
      isFailure (abortInducedResult r) = true) ∧
    (AbortNodeDeletion s n gid d r res).batcherCalls = s.batcherCalls ∧
    lookupAcc (AbortNodeDeletion s n gid d r res).accumulators gid =
      some ⟨N, [], d0, .Aborted⟩ ∧
    (∀ es, (∀ e ∈ es, eventOkFor gid e) →
      callsFor (runFrom (AbortNodeDeletion s n gid d r res) es).batcherCalls gid =
        callsFor s.batcherCalls gid) := by
  have h1 := step_abort_accumulating s n gid d r res N acc d0 hl
  have hset : lookupAcc (AbortNodeDeletion s n gid d r res).accumulators gid =
      some ⟨N, [], d0, .Aborted⟩ := by
    rw [h1]
    exact lookupAcc_setAcc_self s.accumulators gid _
  refine ⟨⟨by rw [h1]; simp, hres⟩, ?_, by rw [h1], hset, ?_⟩
  · intro m hm
    refine ⟨?_, rfl⟩
    rw [h1]
    simp only [List.mem_append]
    right
    exact List.mem_map_of_mem _ hm
  · intro es hes
    have hterm := terminal_frozen gid ⟨N, [], d0, .Aborted⟩ (by simp) es hes
      (AbortNodeDeletion s n gid d r res) hset
    rw [hterm.2, h1]

/-- Witness for C2: aborting the second member of an atomic group of size 3
with one node accumulated. -/
theorem c2_abort_fails_accumulated_witness :
    (("y", (⟨.ErrorFailedToDelete, none⟩ : DeletionResult)) ∈
      (AbortNodeDeletion ⟨[("ag", ⟨3, ["x"], false, .Accumulating⟩)], [], []⟩
        "y" "ag" false "boom" ⟨.ErrorFailedToDelete, none⟩).results ∧
      isFailure (⟨.ErrorFailedToDelete, none⟩ : DeletionResult) = true) ∧
    (∀ m ∈ ["x"],
      (m, abortInducedResult "boom") ∈
        (AbortNodeDeletion ⟨[("ag", ⟨3, ["x"], false, .Accumulating⟩)], [], []⟩
          "y" "ag" false "boom" ⟨.ErrorFailedToDelete, none⟩).results ∧
      isFailure (abortInducedResult "boom") = true) ∧
    (AbortNodeDeletion ⟨[("ag", ⟨3, ["x"], false, .Accumulating⟩)], [], []⟩
        "y" "ag" false "boom" ⟨.ErrorFailedToDelete, none⟩).batcherCalls = [] ∧
    lookupAcc (AbortNodeDeletion
        ⟨[("ag", ⟨3, ["x"], false, .Accumulating⟩)], [], []⟩
        "y" "ag" false "boom" ⟨.ErrorFailedToDelete, none⟩).accumulators "ag" =
      some ⟨3, [], false, .Aborted⟩ ∧
    (∀ es, (∀ e ∈ es, eventOkFor "ag" e) →
      callsFor (runFrom (AbortNodeDeletion
          ⟨[("ag", ⟨3, ["x"], false, .Accumulating⟩)], [], []⟩
          "y" "ag" false "boom" ⟨.ErrorFailedToDelete, none⟩) es).batcherCalls
        "ag" = callsFor ([] : List BatcherCall) "ag") :=
  c2_abort_fails_accumulated ⟨[("ag", ⟨3, ["x"], false, .Accumulating⟩)], [], []⟩
    "ag" 3 ["x"] false "y" false "boom" ⟨.ErrorFailedToDelete, none⟩
    (by decide) rfl

/-- C1: for an atomic group with caller-supplied threshold `N`, scheduling
fewer than `N` nodes produces no Batcher call at all, and scheduling exactly
`N` nodes (with no abort) produces exactly one `AddNodes` call carrying
exactly those `N` node references — issued by the `N`-th call — and no
further schedule call for the group ever adds another call for it. -/
theorem c1_atomic_threshold_flush (g : NodeGroupRef) (N : Nat) (d : Bool)
    (ns ms : List String) (hA : g.isAtomic = true) (hN : 0 < N) :
    (ns.length < N → (run (scheduleTrace g N d ns)).batcherCalls = []) ∧
    (ns.length = N →
      (run (scheduleTrace g N d ns)).batcherCalls = [⟨ns, g.id, d⟩] ∧
      callsFor (run (scheduleTrace g N d (ns ++ ms))).batcherCalls g.id =
        [⟨ns, g.id, d⟩]) := by
  have hacc0 : accFor initState g.id N d = ⟨N, [], d, .Accumulating⟩ := rfl
  have hmain := runSchedules_accumulating g hA N d ns initState [] d hacc0
  constructor
  · intro hlt
    exact (hmain.1 (by simpa using hlt)).2.1
  · intro heq
    have hpos : 0 < ns.length := by omega
    have hfl := hmain.2 (by simpa using heq) hpos
    obtain ⟨hres, hcalls, haccend, hframe⟩ := hfl
    have h1 : (run (scheduleTrace g N d ns)).batcherCalls = [⟨ns, g.id, d⟩] := by
      simpa [run, initState] using hcalls
    refine ⟨h1, ?_⟩
    have h2 : run (scheduleTrace g N d (ns ++ ms)) =
        runFrom (run (scheduleTrace g N d ns)) (scheduleTrace g N d ms) := by
      rw [show run (scheduleTrace g N d (ns ++ ms)) =
          runFrom initState (scheduleTrace g N d (ns ++ ms)) from rfl,
        scheduleTrace_append, runFrom_append]
      rfl
    have hesms : ∀ e ∈ scheduleTrace g N d ms, eventOkFor g.id e := by
      intro e he
      simp only [scheduleTrace, List.mem_map] at he
      obtain ⟨m, hm, rfl⟩ := he
      exact fun _ => hA
    have hlu : lookupAcc (run (scheduleTrace g N d ns)).accumulators g.id =
        some ⟨N, [] ++ ns, d, .Flushed⟩ := haccend
    have hterm := terminal_frozen g.id ⟨N, [] ++ ns, d, .Flushed⟩ (by simp)
      (scheduleTrace g N d ms) hesms _ hlu
    rw [h2, hterm.2, h1]
    simp [callsFor]

/-- Witness for C1 with a threshold-2 atomic group: one node does not flush,
the second does, and a third late node adds no further call. -/
theorem c1_atomic_threshold_flush_witness :
    ((["a"] : List String).length < 2 →
      (run (scheduleTrace ⟨"g", true⟩ 2 false ["a"])).batcherCalls = []) ∧
    ((["a"] : List String).length = 2 →
      (run (scheduleTrace ⟨"g", true⟩ 2 false ["a"])).batcherCalls =
        [⟨["a"], "g", false⟩] ∧
      callsFor (run (scheduleTrace ⟨"g", true⟩ 2 false
          (["a"] ++ ["b", "c"]))).batcherCalls "g" = [⟨["a"], "g", false⟩]) :=
  c1_atomic_threshold_flush ⟨"g", true⟩ 2 false ["a"] ["b", "c"] rfl
    (by decide)

/-- C8: completion is order independent. Any permutation `ns2` of the same
`N` member nodes flushes with exactly one Batcher call carrying those same
`N` node references, the flush happening at the `N`-th call of the
permuted sequence (every proper leading part produces no call). -/
theorem c8_order_independent_completion (g : NodeGroupRef) (N : Nat) (d : Bool)
    (ns ns2 : List String) (hA : g.isAtomic = true) (hN : 0 < N)
    (hlen : ns.length = N) (hperm : ns2.Perm ns) :
    (run (scheduleTrace g N d ns2)).batcherCalls = [⟨ns2, g.id, d⟩] ∧
    ns2.length = N ∧
    (ns2 : Multiset String) = (ns : Multiset String) ∧
    (∀ pre post, ns2 = pre ++ post → pre.length < N →
      (run (scheduleTrace g N d pre)).batcherCalls = []) := by
  have hlen2 : ns2.length = N := hperm.length_eq.trans hlen
  have hacc0 : accFor initState g.id N d = ⟨N, [], d, .Accumulating⟩ := rfl
  have hmain := runSchedules_accumulating g hA N d ns2 initState [] d hacc0
  have hpos : 0 < ns2.length := by omega
  have hfl := hmain.2 (by simpa using hlen2) hpos
  refine ⟨by simpa [run, initState] using hfl.2.1, hlen2,
    Multiset.coe_eq_coe.mpr hperm, ?_⟩
  intro pre post hsplit hpre
  have hmain2 := runSchedules_accumulating g hA N d pre initState [] d hacc0
  exact (hmain2.1 (by simpa using hpre)).2.1

/-- Witness for C8: scheduling the two members of a threshold-2 group in
reversed order still flushes on the second call with both references. -/
theorem c8_order_independent_completion_witness :
    (run (scheduleTrace ⟨"g", true⟩ 2 false ["b", "a"])).batcherCalls =
      [⟨["b", "a"], "g", false⟩] ∧
    (["b", "a"] : List String).length = 2 ∧
    ((["b", "a"] : List String) : Multiset String) =
      ((["a", "b"] : List String) : Multiset String) ∧
    (∀ pre post, (["b", "a"] : List String) = pre ++ post → pre.length < 2 →
      (run (scheduleTrace ⟨"g", true⟩ 2 false pre)).batcherCalls = []) :=
  c8_order_independent_completion ⟨"g", true⟩ 2 false ["a", "b"] ["b", "a"]
    rfl (by decide) (by decide) (by decide)

/-- The caller-supplied failure used in the C7 scenario. -/
def abortRes : DeletionResult := ⟨.ErrorFailedToDelete, some "simulated abort"⟩

/-- The C7 scenario trace: atomic group of size 4 with two members
scheduled, interleaved with an atomic group of size 2 fully scheduled; then
a third member of the size-4 group is aborted and a fourth arrives late. -/
def c7Trace : List Event :=
  [.schedule "a4-0" ⟨"atomic-4", true⟩ 4 false,
   .schedule "a2-0" ⟨"atomic-2", true⟩ 2 false,
   .schedule "a4-1" ⟨"atomic-4", true⟩ 4 false,
   .schedule "a2-1" ⟨"atomic-2", true⟩ 2 false,
   .abort "a4-2" "atomic-4" false "simulated abort" abortRes,
   .schedule "a4-3" ⟨"atomic-4", true⟩ 4 false]

/-- C7: group isolation. Any single call addressed to one group id leaves
every other group id's accumulator entry and Batcher calls unchanged and the
tracker entries of untouched nodes unchanged; concretely, aborting the
size-4 atomic group mid-accumulation does not disturb the size-2 atomic
group scheduled in the same pass, which flushes normally with both members
and no failure results, while all four size-4 members get failures. -/
theorem c7_group_isolation :
    (∀ (s : SchedulerState) (e : Event) (gid' : String), gid' ≠ eventGid e →
      lookupAcc (step s e).accumulators gid' = lookupAcc s.accumulators gid' ∧
      callsFor (step s e).batcherCalls gid' = callsFor s.batcherCalls gid' ∧
      (∀ m, m ∉ touchedNodes s e →
        resultsFor (step s e).results m = resultsFor s.results m)) ∧
    (callsFor (run c7Trace).batcherCalls "atomic-2" =
        [⟨["a2-0", "a2-1"], "atomic-2", false⟩] ∧
      callsFor (run c7Trace).batcherCalls "atomic-4" = [] ∧
      resultsFor (run c7Trace).results "a2-0" = [] ∧
      resultsFor (run c7Trace).results "a2-1" = [] ∧
      ("a4-0", abortInducedResult "simulated abort") ∈ (run c7Trace).results ∧
      ("a4-1", abortInducedResult "simulated abort") ∈ (run c7Trace).results ∧
      ("a4-2", abortRes) ∈ (run c7Trace).results ∧
      ("a4-3", abortedGroupResult) ∈ (run c7Trace).results ∧
      isFailure (abortInducedResult "simulated abort") = true ∧
      isFailure abortRes = true ∧ isFailure abortedGroupResult = true) := by
  refine ⟨fun s e gid' h => step_frame s e gid' h, ?_⟩
  decide

/-- Witness for C7: one concrete frame instance — an atomic schedule for one
group does not change another group's accumulator entry. -/
theorem c7_group_isolation_witness :
    lookupAcc (step initState
        (.schedule "x" ⟨"gA", true⟩ 2 false)).accumulators "gB" =
      lookupAcc initState.accumulators "gB" :=
  (c7_group_isolation.1 initState (.schedule "x" ⟨"gA", true⟩ 2 false) "gB"
    (by decide)).1

end Scheduler

namespace Listers

/-- A pod condition: the fields of `apiv1.PodCondition` consulted by
`UnschedulablePods` (type, status, reason). -/
structure PodCondition where
  condType : String
  status : String
  reason : String
  deriving DecidableEq

/-- A pod: the fields of `apiv1.Pod` consulted by `ScheduledPods` and
`UnschedulablePods` (name, `Spec.NodeName`, status conditions, deletion
timestamp). -/
structure Pod where
  name : String
  nodeName : String
  conditions : List PodCondition
  deletionTimestamp : Option String
  deriving DecidableEq

/-- The `apiv1.PodScheduled` condition type constant. -/
def PodScheduledType : String := "PodScheduled"

/-- The `apiv1.ConditionFalse` status constant. -/
def ConditionFalse : String := "False"

/-- The `apiv1.PodReasonUnschedulable` reason constant. -/
def PodReasonUnschedulable : String := "Unschedulable"

/-- `podv1.GetPodCondition`: first condition of the given type, if any. -/
def GetPodCondition : List PodCondition → String → Option PodCondition
  | [], _ => none
  | c :: rest, t => if c.condType = t then some c else GetPodCondition rest t

/-- `ScheduledPods` from listers.go: keeps the pods with a non-empty
`Spec.NodeName`, in input order. -/
def ScheduledPods : List Pod → List Pod
  | [] => []
  | pod :: rest =>
    if pod.nodeName ≠ "" then pod :: ScheduledPods rest else ScheduledPods rest

/-- `UnschedulablePods` from listers.go: keeps the pods with empty
`Spec.NodeName` whose `PodScheduled` condition is `False` with reason
`Unschedulable` and whose deletion timestamp is nil, in input order. -/
def UnschedulablePods : List Pod → List Pod
  | [] => []
  | pod :: rest =>
    if pod.nodeName = "" then
      match GetPodCondition pod.conditions PodScheduledType with
      | some c =>
        if c.status = ConditionFalse ∧ c.reason = PodReasonUnschedulable then
          if pod.deletionTimestamp = none then pod :: UnschedulablePods rest
          else UnschedulablePods rest
        else UnschedulablePods rest
      | none => UnschedulablePods rest
    else UnschedulablePods rest

/-- A cluster node; only identity matters to the lister code. -/
structure Node where
  name : String
  deriving DecidableEq

/-- A Go slice value: either the nil slice or a (possibly empty) backed
slice. `nodeListerImpl.List` distinguishes the two on its error path. -/
inductive GoSlice (α : Type) where
  | goNil : GoSlice α
  | goElems : List α → GoSlice α
  deriving DecidableEq

/-- The elements of a Go slice (nil and empty both have none). -/
def GoSlice.toList {α : Type} : GoSlice α → List α
  | .goNil => []
  | .goElems l => l

/-- Go `append(s, x)`: appending to the nil slice allocates a fresh one. -/
def GoSlice.push {α : Type} : GoSlice α → α → GoSlice α
  | .goNil, x => .goElems [x]
  | .goElems l, x => .goElems (l ++ [x])

/-- `filterNodes` from listers.go: starts from the nil slice and appends
every node satisfying the predicate, in input order. -/
def filterNodes (nodes : List Node) (predicate : Node → Bool) : GoSlice Node :=
  nodes.foldl (fun acc n => if predicate n then acc.push n else acc) .goNil

/-- The `nodeListerImpl` receiver: the outcome of the underlying
`v1lister.NodeLister.List` call, and the optional filter predicate. -/
structure nodeListerImpl where
  listed : GoSlice Node × Option String
  filter : Option (Node → Bool)

/-- `nodeListerImpl.List` from listers.go: on an underlying error, returns a
fresh empty (non-nil) slice with the error; otherwise applies the filter
when one is set. -/
def nodeListerImpl.List (l : nodeListerImpl) : GoSlice Node × Option String :=
  match l.listed.2 with
  | some e => (.goElems [], some e)
  | none =>
    match l.filter with
    | some f => (filterNodes l.listed.1.toList f, none)
    | none => (l.listed.1, none)

theorem GoSlice.toList_push {α : Type} (s : GoSlice α) (x : α) :
    (s.push x).toList = s.toList ++ [x] := by
  cases s <;> simp [GoSlice.push, GoSlice.toList]

theorem filterNodes_toList (nodes : List Node) (p : Node → Bool) :
    (filterNodes nodes p).toList = nodes.filter p := by
  suffices h : ∀ (acc : GoSlice Node),
      (nodes.foldl (fun acc n => if p n then acc.push n else acc) acc).toList =
        acc.toList ++ nodes.filter p by
    simpa [filterNodes, GoSlice.toList] using h .goNil
  induction nodes with
  | nil => intro acc; simp
  | cons n rest ih =>
    intro acc
    by_cases hp : p n
    · simp [List.foldl_cons, hp, ih, GoSlice.toList_push, List.filter_cons]
    · simp [List.foldl_cons, hp, ih, List.filter_cons]

theorem scheduledPods_eq_filter (l : List Pod) :
    ScheduledPods l = l.filter (fun p => p.nodeName ≠ "") := by
  induction l with
  | nil => rfl
  | cons pod rest ih =>
    by_cases h : pod.nodeName = "" <;>
      simp [ScheduledPods, List.filter_cons, h, ih]

theorem mem_unschedulablePods (l : List Pod) (p : Pod)
    (hp : p ∈ UnschedulablePods l) :
    p.nodeName = "" ∧
    (∃ c, GetPodCondition p.conditions PodScheduledType = some c ∧
      c.status = ConditionFalse ∧ c.reason = PodReasonUnschedulable) ∧
    p.deletionTimestamp = none := by
  induction l with
  | nil => simp [UnschedulablePods] at hp
  | cons pod rest ih =>
    by_cases hn : pod.nodeName = ""
    · cases hc : GetPodCondition pod.conditions PodScheduledType with
      | none =>
        rw [show UnschedulablePods (pod :: rest) = UnschedulablePods rest by
          simp [UnschedulablePods, hn, hc]] at hp
        exact ih hp
      | some c =>
        by_cases hcr : c.status = ConditionFalse ∧ c.reason = PodReasonUnschedulable
        · by_cases hdt : pod.deletionTimestamp = none
          · have hp' : p = pod ∨ p ∈ UnschedulablePods rest := by
              have : UnschedulablePods (pod :: rest) =
                  pod :: UnschedulablePods rest := by
                simp [UnschedulablePods, hn, hc, hcr, hdt]
              rw [this] at hp
              simpa using hp
            rcases hp' with rfl | hp'
            · exact ⟨hn, ⟨c, hc, hcr.1, hcr.2⟩, hdt⟩
            · exact ih hp'
          · rw [show UnschedulablePods (pod :: rest) = UnschedulablePods rest by
              simp [UnschedulablePods, hn, hc, hcr, hdt]] at hp
            exact ih hp
        · rw [show UnschedulablePods (pod :: rest) = UnschedulablePods rest by
            simp [UnschedulablePods, hn, hc, hcr]] at hp
          exact ih hp
    · rw [show UnschedulablePods (pod :: rest) = UnschedulablePods rest by
        simp [UnschedulablePods, hn]] at hp
      exact ih hp

/-- C9: `ScheduledPods` returns exactly the pods with a non-empty
`Spec.NodeName`, in input order; `UnschedulablePods` returns only pods with
an empty `Spec.NodeName` whose `PodScheduled` condition exists with status
`False` and reason `Unschedulable` and whose deletion timestamp is nil; so
no pod appears in both outputs. -/
theorem c9_pod_partition (l : List Pod) :
    ScheduledPods l = l.filter (fun p => p.nodeName ≠ "") ∧
    (∀ p ∈ UnschedulablePods l,
      p.nodeName = "" ∧
      (∃ c, GetPodCondition p.conditions PodScheduledType = some c ∧
        c.status = ConditionFalse ∧ c.reason = PodReasonUnschedulable) ∧
      p.deletionTimestamp = none) ∧
    (∀ p, p ∈ ScheduledPods l → p ∈ UnschedulablePods l → False) := by
  refine ⟨scheduledPods_eq_filter l,
    fun p hp => mem_unschedulablePods l p hp, fun p hs hu => ?_⟩
  have h1 : p.nodeName ≠ "" := by
    rw [scheduledPods_eq_filter l] at hs
    have := List.mem_filter.mp hs
    simpa using this.2
  exact h1 (mem_unschedulablePods l p hu).1

/-- Witness for C9 on a two-pod list: one scheduled pod, one unschedulable
pod. -/
theorem c9_pod_partition_witness :
    ScheduledPods [⟨"pa", "node1", [], none⟩,
        ⟨"pb", "", [⟨"PodScheduled", "False", "Unschedulable"⟩], none⟩] =
      ([⟨"pa", "node1", [], none⟩,
        ⟨"pb", "", [⟨"PodScheduled", "False", "Unschedulable"⟩], none⟩] :
          List Pod).filter (fun p => p.nodeName ≠ "") ∧
    ((⟨"pb", "", [⟨"PodScheduled", "False", "Unschedulable"⟩], none⟩ :
        Pod).nodeName = "" ∧
      (∃ c, GetPodCondition (⟨"pb", "",
          [⟨"PodScheduled", "False", "Unschedulable"⟩], none⟩ :
            Pod).conditions PodScheduledType = some c ∧
        c.status = ConditionFalse ∧ c.reason = PodReasonUnschedulable) ∧
      (⟨"pb", "", [⟨"PodScheduled", "False", "Unschedulable"⟩], none⟩ :
        Pod).deletionTimestamp = none) :=
  ⟨(c9_pod_partition [⟨"pa", "node1", [], none⟩,
      ⟨"pb", "", [⟨"PodScheduled", "False", "Unschedulable"⟩], none⟩]).1,
    (c9_pod_partition [⟨"pa", "node1", [], none⟩,
      ⟨"pb", "", [⟨"PodScheduled", "False", "Unschedulable"⟩], none⟩]).2.1
      ⟨"pb", "", [⟨"PodScheduled", "False", "Unschedulable"⟩], none⟩
      (by decide)⟩

/-- C10: `nodeListerImpl.List` returns a fresh non-nil empty slice together
with the error when the underlying lister fails; on success it returns, in
order, exactly the listed nodes satisfying the filter when a filter is set,
and all listed nodes when the filter is nil. -/
theorem c10_node_lister_list (ns : GoSlice Node) (e : String)
    (f : Node → Bool) (fl : Option (Node → Bool)) :
    nodeListerImpl.List ⟨(ns, some e), fl⟩ = (.goElems [], some e) ∧
    (nodeListerImpl.List ⟨(ns, none), some f⟩).1.toList = ns.toList.filter f ∧
    (nodeListerImpl.List ⟨(ns, none), some f⟩).2 = none ∧
    nodeListerImpl.List ⟨(ns, none), none⟩ = (ns, none) := by
  refine ⟨rfl, ?_, rfl, rfl⟩
  simp [nodeListerImpl.List, filterNodes_toList]

end Listers
